import Mathlib

/-!
# Verification of the nfs-scanner core against its specification

Shallow embedding of the core components of the `nfs-scanner` repository:
the scan runner's coordinate generation and run control flow
(`core/scan/scan_runner.py`), the trace grid store (`core/scan/trace_store.py`),
the scan queue manager (`core/scan/scan_queue_manager.py`), the LUT builder
(`core/visualization/lut_manager.py`) and the heatmap rendering pipeline
(`core/visualization/heatmap_export.py`).

Machine floating point numbers are modelled by exact rationals (`ℚ`): the
arithmetic the claims exercise (stepping, normalization, clamping, rounding)
is stated and refuted/confirmed at inputs where float and rational
arithmetic agree.
-/

namespace NfsScanner

/-- The epsilon the runner adds to the upper scan bound
(`1e-9` in `ScanRunner.run`). -/
def epsArange : ℚ := 1 / 1000000000

/-- `ScanParams` from `core/scan/scan_runner.py`. -/
structure ScanParams where
  x_min : ℚ
  x_max : ℚ
  y_min : ℚ
  y_max : ℚ
  step_mm : ℚ
  z_height_mm : ℚ
  feed : ℚ
  freq_hz : ℚ
deriving DecidableEq, Repr

/-- `np.arange(start, stop, step)` for positive `step`, over exact rationals:
the list `start, start+step, …` of length `⌈(stop-start)/step⌉`
(zero length when the span is nonpositive). -/
def arangeQ (start stop step : ℚ) : List ℚ :=
  (List.range (⌈(stop - start) / step⌉).toNat).map (fun i : ℕ => start + (i : ℚ) * step)

/-- The x-coordinate sequence of `ScanRunner.run`:
`np.arange(x_min, x_max + 1e-9, step_mm)`. -/
def xsOf (p : ScanParams) : List ℚ :=
  arangeQ p.x_min (p.x_max + epsArange) p.step_mm

/-- The y-coordinate sequence of `ScanRunner.run`:
`np.arange(y_min, y_max + 1e-9, step_mm)`. -/
def ysOf (p : ScanParams) : List ℚ :=
  arangeQ p.y_min (p.y_max + epsArange) p.step_mm

/-- Number of samples `np.arange(start, stop, step)` produces. -/
def arangeLen (start stop step : ℚ) : ℕ := (⌈(stop - start) / step⌉).toNat

/-- `TraceInfo` from `core/drivers/spectrum/base.py` (defaults `kind=""`,
`unit="dB"`). -/
structure TraceInfo where
  name : String
  kind : String
  unit : String
deriving DecidableEq, Repr

/-- Outcome of each external side-effecting call `ScanRunner.run` makes
(directory creation, the motion/instrument capability contract of §6, and
the save phase).  `Except.error msg` models the call raising an exception
whose `str` is `msg`; `Except.ok` models normal return. -/
structure DriverOutcomes where
  makeTaskDir : Except String Unit
  motionConnect : Except String Unit
  spectrumConnect : Except String Unit
  setFrequency : Except String Unit
  home : Except String Unit
  moveTo : ℚ → ℚ → Except String Unit
  measure : String → ℚ → ℚ → Except String ℚ
  saveGrid : String → Except String Unit
  writeMeta : Except String Unit
  motionDisconnect : Except String Unit
  spectrumDisconnect : Except String Unit

/-- The row-major point order of the sweep in `ScanRunner.run`
(y outer, x inner). -/
def scanPoints (p : ScanParams) : List (ℚ × ℚ) :=
  (ysOf p).flatMap (fun y => (xsOf p).map (fun x => (x, y)))

/-- One grid point: measure every configured trace
(`spectrum.measure_trace_point` per trace, in order). -/
def measureTraces (d : DriverOutcomes) (traces : List TraceInfo) (x y : ℚ) :
    Except String (List ℚ) :=
  traces.mapM (fun t => d.measure t.name x y)

/-- The sweep loop of `ScanRunner.run`: before every motion command the stop
flag is checked and, when set, `RuntimeError("User stopped")` is raised;
otherwise `move_to` is issued and every trace sampled.  Returns the list of
issued moves and the raised exception message, if any.  `stop` is the value
of the cooperative stop flag (a `threading.Event` that is only ever set,
never cleared, during a run); the pause wait loop is not modelled. -/
def sweepPoints (stop : Bool) (d : DriverOutcomes) (traces : List TraceInfo) :
    List (ℚ × ℚ) → List (ℚ × ℚ) × Option String
  | [] => ([], none)
  | (x, y) :: rest =>
    if stop then ([], some "User stopped")
    else
      match d.moveTo x y with
      | .error e => ([], some e)
      | .ok _ =>
        match measureTraces d traces x y with
        | .error e => ([(x, y)], some e)
        | .ok _ =>
          let r := sweepPoints stop d traces rest
          ((x, y) :: r.1, r.2)

/-- The save phase: `store.save_grid` for each trace, in order. -/
def saveAll (d : DriverOutcomes) (traces : List TraceInfo) : Except String Unit :=
  (traces.mapM (fun t => d.saveGrid t.name)).map (fun _ => ())

/-- Observable outcome of one `ScanRunner.run` call: the `finished`
notification `(task_id, ok, message)`, the motion commands issued, and
whether each capability's `disconnect` was invoked. -/
structure RunResult where
  finished : String × Bool × String
  moves : List (ℚ × ℚ)
  motionDisconnected : Bool
  spectrumDisconnected : Bool
deriving Repr

/-- `ScanRunner.run`: the `try` body executes directory creation, connect
(motion then spectrum), `set_frequency`, `home`, the sweep, the save phase
and the manifest write, stopping at the first raised exception; `finished`
reports `(task_id, True, "OK")` on success and `(task_id, False, str(e))`
on any exception; the `finally` block always invokes both disconnects and
swallows their exceptions (the result does not depend on
`motionDisconnect`/`spectrumDisconnect`). -/
def runScan (taskId : String) (p : ScanParams) (traces : List TraceInfo)
    (stop : Bool) (d : DriverOutcomes) : RunResult :=
  let body : List (ℚ × ℚ) × Option String :=
    match d.makeTaskDir with
    | .error e => ([], some e)
    | .ok _ =>
      match d.motionConnect with
      | .error e => ([], some e)
      | .ok _ =>
        match d.spectrumConnect with
        | .error e => ([], some e)
        | .ok _ =>
          match d.setFrequency with
          | .error e => ([], some e)
          | .ok _ =>
            match d.home with
            | .error e => ([], some e)
            | .ok _ =>
              let r := sweepPoints stop d traces (scanPoints p)
              match r.2 with
              | some e => (r.1, some e)
              | none =>
                match saveAll d traces with
                | .error e => (r.1, some e)
                | .ok _ =>
                  match d.writeMeta with
                  | .error e => (r.1, some e)
                  | .ok _ => (r.1, none)
  { finished :=
      match body.2 with
      | none => (taskId, true, "OK")
      | some e => (taskId, false, e)
    moves := body.1
    motionDisconnected := true
    spectrumDisconnected := true }

/-- A driver-outcome record where every external call succeeds
(the mock drivers of `core/drivers/*/mock.py` behave this way). -/
def allOkOutcomes : DriverOutcomes where
  makeTaskDir := .ok ()
  motionConnect := .ok ()
  spectrumConnect := .ok ()
  setFrequency := .ok ()
  home := .ok ()
  moveTo := fun _ _ => .ok ()
  measure := fun _ _ _ => .ok 0
  saveGrid := fun _ => .ok ()
  writeMeta := .ok ()
  motionDisconnect := .ok ()
  spectrumDisconnect := .ok ()

/-- One colormap control point `(t, [r, g, b])` from
`core/visualization/lut_manager.py`. -/
structure LutPoint where
  t : ℚ
  r : ℚ
  g : ℚ
  b : ℚ
deriving DecidableEq, Repr

/-- Inner loop of `np.interp` once `x` is known to lie beyond `tPrev`:
walk the remaining sample points; between two bracketing points
interpolate linearly, past the last return its value.  (numpy's behavior
at duplicated sample positions is ill-defined — division by zero — and is
not exercised by any claim.) -/
def npInterpGo (x tPrev fPrev : ℚ) : List (ℚ × ℚ) → ℚ
  | [] => fPrev
  | (t, f) :: rest =>
    if x ≤ t then fPrev + (f - fPrev) * (x - tPrev) / (t - tPrev)
    else npInterpGo x t f rest

/-- `np.interp(x, ts, fs)` on the zipped list of `(t, f)` sample points:
clamps to the first value below the first sample and to the last value
above the last sample, linear in between.  (`np.interp` raises on an empty
sample list; that case is unreachable through `get_lut` and modelled
as `0`.) -/
def npInterp (x : ℚ) : List (ℚ × ℚ) → ℚ
  | [] => 0
  | (t0, f0) :: rest => if x ≤ t0 then f0 else npInterpGo x t0 f0 rest

/-- `np.linspace(0.0, 1.0, 256)`: the 256 positions `i / 255`. -/
def linspace256 : List ℚ := (List.range 256).map (fun i : ℕ => (i : ℚ) / 255)

/-- `clip(0, 255)` of one table entry. -/
def clip255 (v : ℚ) : ℚ := max 0 (min 255 v)

/-- `_build_table_from_points`: sort the control points by `t` (stable, as
Python's `sorted`), then per channel evaluate `np.interp` at 256 evenly
spaced positions, clip to `[0, 255]` and truncate to integer bytes
(`astype(np.uint8)` truncates toward zero; the values are nonnegative
after the clip). -/
def buildTableFromPoints (points : List LutPoint) : List (ℤ × ℤ × ℤ) :=
  let pts := points.mergeSort (fun a b => decide (a.t ≤ b.t))
  linspace256.map (fun x =>
    (⌊clip255 (npInterp x (pts.map (fun p => (p.t, p.r))))⌋,
     ⌊clip255 (npInterp x (pts.map (fun p => (p.t, p.g))))⌋,
     ⌊clip255 (npInterp x (pts.map (fun p => (p.t, p.b))))⌋))

/-- `LUT` from `core/visualization/lut_manager.py`: a name and a 256-row
RGB table. -/
structure LUT where
  name : String
  table : List (ℤ × ℤ × ℤ)
deriving DecidableEq, Repr

/-- `get_lut`: the parsed colormap json's `points` entry (`none` models a
missing / non-list `points` key).  Raises
`ValueError(f"Invalid LUT json: {name}")` iff the entry is missing or the
list is empty; otherwise builds the table. -/
def getLut (name : String) (points : Option (List LutPoint)) : Except String LUT :=
  match points with
  | none => .error ("Invalid LUT json: " ++ name)
  | some pts =>
    if pts.isEmpty then .error ("Invalid LUT json: " ++ name)
    else .ok { name := name, table := buildTableFromPoints pts }

/-- Python's `str.isalnum()` for a single character, embedded exactly for
code points below `0x100` (Basic Latin and Latin-1 Supplement, the range
the claims exercise): ASCII digits and letters; the Latin-1 ordinal,
superscript, fraction and micro signs (`ª ² ³ µ ¹ º ¼ ½ ¾`); and the
Latin-1 letters `0xC0`–`0xFF` except `×` (`0xD7`) and `÷` (`0xF7`).
Code points at or above `0x100` are outside the modelled range and mapped
to `false`. -/
def pyIsAlnum (c : Char) : Bool :=
  let v := c.toNat
  (0x30 ≤ v && v ≤ 0x39) || (0x41 ≤ v && v ≤ 0x5A) || (0x61 ≤ v && v ≤ 0x7A) ||
  v == 0xAA || v == 0xB2 || v == 0xB3 || v == 0xB5 || v == 0xB9 || v == 0xBA ||
  v == 0xBC || v == 0xBD || v == 0xBE ||
  (0xC0 ≤ v && v ≤ 0xFF && v != 0xD7 && v != 0xF7)

/-- Per-character body of `_safe_name` in `core/scan/trace_store.py`:
`c if c.isalnum() or c in ("_", "-", ".") else "_"`. -/
def pySafeChar (c : Char) : Char :=
  if pyIsAlnum c || c == '_' || c == '-' || c == '.' then c else '_'

/-- `_safe_name`: the filesystem-safe storage key derived from a trace
name (`"".join(...)` over the per-character mapping). -/
def safeName (name : String) : String :=
  String.mk (name.data.map pySafeChar)

/-- The sanitization the SPEC describes for claim C7 (replace any character
outside `[A-Za-z0-9_.-]` with `_`), written from the spec's words so it can
be compared with the code's `safeName`. -/
def specAsciiAlnum (c : Char) : Bool :=
  (('A' ≤ c && c ≤ 'Z') || ('a' ≤ c && c ≤ 'z') || ('0' ≤ c && c ≤ '9'))

/-- Spec-side sanitization of a whole name (claim C7's `[A-Za-z0-9_.-]`
character class). -/
def specSanitizeName (name : String) : String :=
  String.mk (name.data.map (fun c =>
    if specAsciiAlnum c || c == '_' || c == '-' || c == '.' then c else '_'))

/-- `TraceGrid` from `core/scan/trace_store.py`.  The numpy float32 arrays
are modelled as lists of their exact rational values. -/
structure TraceGrid where
  trace_name : String
  xs : List ℚ
  ys : List ℚ
  freqs : List ℚ
  values : List (List (List ℚ))
  unit : String
deriving DecidableEq, Repr

/-- `np.ndarray.astype(np.float32)`.  Every array this program saves and
reloads is already of dtype float32 (the runner allocates them as
`np.float32`, and `load_grid` re-casts what `save_grid` wrote), so the
cast is the identity on the modelled payload. -/
def astypeFloat32 (a : List ℚ) : List ℚ := a

/-- `astype(np.float32)` for the 3-dimensional `values` array. -/
def astypeFloat32v (a : List (List (List ℚ))) : List (List (List ℚ)) := a

/-- `TraceStore.save_grid`: write `traces/<safe_name>.npz` (overwriting any
existing bundle for the same key) containing the original `trace_name`,
`unit`, and the arrays cast to float32.  The traces directory is modelled
as an association list from sanitized key to saved bundle; writing shadows
the previous entry for the key. -/
def storeSaveGrid (store : List (String × TraceGrid)) (g : TraceGrid) :
    List (String × TraceGrid) :=
  (safeName g.trace_name,
    TraceGrid.mk g.trace_name (astypeFloat32 g.xs) (astypeFloat32 g.ys)
      (astypeFloat32 g.freqs) (astypeFloat32v g.values) g.unit) ::
    store.filter (fun kv => kv.1 != safeName g.trace_name)

/-- `TraceStore.load_grid`: read `traces/<safe_name>.npz` and rebuild a
`TraceGrid` (re-casting every array to float32); `none` models the
`FileNotFoundError` raised when no bundle exists for the key. -/
def storeLoadGrid (store : List (String × TraceGrid)) (traceName : String) :
    Option TraceGrid :=
  (store.lookup (safeName traceName)).map (fun g =>
    TraceGrid.mk g.trace_name (astypeFloat32 g.xs) (astypeFloat32 g.ys)
      (astypeFloat32 g.freqs) (astypeFloat32v g.values) g.unit)

/-- `QueueItem` from `core/scan/scan_queue_manager.py` — one row of the
`scan_queue_item` table.  `params_json` and `trace_list_json` carry the
stored JSON texts (never inspected by the queue logic). -/
structure QueueItem where
  id : String
  created_at : String
  status : String
  params_json : String
  trace_list_json : String
  task_id : Option String
  message : String
deriving DecidableEq, Repr

/-- `ScanQueueManager.add`: INSERT a new row with status `"queued"`, no
bound task and empty message.  `createdAt` is the `datetime.now()`
timestamp string formatted `"%Y-%m-%d %H:%M:%S"` (lexicographic order on
these strings is chronological order). -/
def queueAdd (table : List QueueItem) (itemId createdAt paramsJson traceListJson : String) :
    List QueueItem :=
  table ++ [QueueItem.mk itemId createdAt "queued" paramsJson traceListJson none ""]

/-- Scan for the row with minimal `created_at` (SQLite's
`ORDER BY created_at ASC LIMIT 1`); on equal timestamps SQLite's choice is
unspecified and this model keeps the earlier row. -/
def nextQueuedGo : Option QueueItem → List QueueItem → Option QueueItem
  | acc, [] => acc
  | none, it :: rest => nextQueuedGo (some it) rest
  | some b, it :: rest =>
    nextQueuedGo (some (if it.created_at.data < b.created_at.data then it else b)) rest

/-- `ScanQueueManager.next_queued`:
`SELECT … WHERE status='queued' ORDER BY created_at ASC LIMIT 1`. -/
def nextQueued (table : List QueueItem) : Option QueueItem :=
  nextQueuedGo none (table.filter (fun it => it.status == "queued"))

/-- `ScanQueueManager.update_status`:
`UPDATE scan_queue_item SET status=?, message=? WHERE id=?`. -/
def queueUpdateStatus (table : List QueueItem) (itemId status message : String) :
    List QueueItem :=
  table.map (fun it =>
    if it.id == itemId then { it with status := status, message := message } else it)

/-- `ScanQueueManager.delete`: `DELETE FROM scan_queue_item WHERE id=?` —
unconditional, no status check at the manager level. -/
def queueDelete (table : List QueueItem) (itemId : String) : List QueueItem :=
  table.filter (fun it => it.id != itemId)

/-- The state `MainWindow.delete_selected` consults: the queue table, the
id of the queue item currently being executed
(`_queue_current_item_id`), and whether the queue loop is active
(`_queue_running`). -/
structure QueueUiState where
  table : List QueueItem
  currentId : Option String
  queueRunning : Bool
deriving DecidableEq, Repr

/-- `MainWindow.delete_selected`: for each selected id, refuse (skip) when
it is the currently executing item and the queue loop is active
(`self._queue_current_item_id == qid and self._queue_running`); otherwise
call the manager's unconditional delete.  Note the guard checks the
UI's current-item marker, not the row's `status` column. -/
def deleteSelected (st : QueueUiState) (ids : List String) : QueueUiState :=
  { st with
      table := ids.foldl (fun tbl qid =>
        if st.currentId == some qid && st.queueRunning then tbl
        else queueDelete tbl qid) st.table }

/-- Mark a queue item `running` then `done` (the per-item lifecycle of the
FIFO scenario in the spec's §8). -/
def markRunningThenDone (table : List QueueItem) (itemId : String) : List QueueItem :=
  queueUpdateStatus (queueUpdateStatus table itemId "running" "") itemId "done" ""

/-- The three-item queue of the FIFO scenario: A, B, C enqueued at strictly
increasing creation times. -/
def fifoTable0 : List QueueItem :=
  queueAdd (queueAdd (queueAdd [] "A" "2024-01-01 00:00:01" "p" "t")
    "B" "2024-01-01 00:00:02" "p" "t") "C" "2024-01-01 00:00:03" "p" "t"

/-- `1e-12`, the degeneracy threshold of `apply_lut`, as a reduced rational
literal (kernel-computable, unlike a `1 / 10^12` division term). -/
def eps12 : ℚ := ⟨1, 1000000000000, by norm_num, by simp [Nat.coprime_one_left]⟩

/-- `grid.min()` over all cells (row-major flattening); numpy raises on an
empty array, modelled as `0` (no claim evaluates the bounds of an empty
grid). -/
def gridMin (g : List (List ℚ)) : ℚ :=
  match g.flatMap id with
  | [] => 0
  | v :: vs => vs.foldl min v

/-- `grid.max()` over all cells. -/
def gridMax (g : List (List ℚ)) : ℚ :=
  match g.flatMap id with
  | [] => 0
  | v :: vs => vs.foldl max v

/-- The effective normalization bounds of `apply_lut`:
`if autoscale or vmin is None or vmax is None:` use the grid's min/max,
else the supplied bounds. -/
def effBounds (grid : List (List ℚ)) (autoscale : Bool) (vmin? vmax? : Option ℚ) :
    ℚ × ℚ :=
  match autoscale, vmin?, vmax? with
  | false, some v0, some v1 => (v0, v1)
  | _, _, _ => (gridMin grid, gridMax grid)

/-- Clamp to `[0, 1]` (`norm.clip(0.0, 1.0)` per cell). -/
def clamp01 (q : ℚ) : ℚ := max 0 (min 1 q)

/-- The pre-clip normalized grid of `apply_lut`: all zeros when
`vmax - vmin < 1e-12`, else `(v - vmin) / (vmax - vmin)` per cell. -/
def normGrid (grid : List (List ℚ)) (vmin vmax : ℚ) : List (List ℚ) :=
  if vmax - vmin < eps12 then grid.map (fun row => row.map (fun _ => 0))
  else grid.map (fun row => row.map (fun v => (v - vmin) / (vmax - vmin)))

/-- `norm.clip(0.0, 1.0)`. -/
def clipGrid (g : List (List ℚ)) : List (List ℚ) :=
  g.map (fun row => row.map clamp01)

/-- The normalization stage of `apply_lut`: effective bounds, degenerate
guard, per-cell normalization and clip.  Returns the clipped normalized
grid and the `(vmin, vmax)` reported on the `HeatmapImage`. -/
def applyLutNorm (grid : List (List ℚ)) (autoscale : Bool) (vmin? vmax? : Option ℚ) :
    List (List ℚ) × ℚ × ℚ :=
  let b := effBounds grid autoscale vmin? vmax?
  (clipGrid (normGrid grid b.1 b.2), b.1, b.2)

/-- `np.round` (`.round()` on an array): round half to even. -/
def roundHalfEven (q : ℚ) : ℤ :=
  let f := ⌊q⌋
  let r := q - f
  if r < 1/2 then f
  else if 1/2 < r then f + 1
  else if f % 2 = 0 then f else f + 1

/-- The LUT index grid of `apply_lut`:
`(norm * 255.0).round().astype(np.uint8)` per cell (the `uint8` cast is the
identity once the index is shown to lie in `[0, 255]`). -/
def lutIndexGrid (grid : List (List ℚ)) (autoscale : Bool) (vmin? vmax? : Option ℚ) :
    List (List ℤ) :=
  ((applyLutNorm grid autoscale vmin? vmax?).1).map (fun row =>
    row.map (fun q => roundHalfEven (q * 255)))

/-- A scattered input point `(x, y, z, value)` of `build_grid`
(`z` is ignored by the grid construction). -/
def ptX (p : ℚ × ℚ × ℚ × ℚ) : ℚ := p.1

/-- The y coordinate of a scattered point. -/
def ptY (p : ℚ × ℚ × ℚ × ℚ) : ℚ := p.2.1

/-- The value of a scattered point. -/
def ptV (p : ℚ × ℚ × ℚ × ℚ) : ℚ := p.2.2.2

/-- Ascending insertion of one element (kernel-computable stable sort
helper). -/
def insertAsc (a : ℚ) : List ℚ → List ℚ
  | [] => [a]
  | b :: l => if a ≤ b then a :: b :: l else b :: insertAsc a l

/-- Ascending stable sort (Python's `sorted` on rationals). -/
def insertionSortAsc : List ℚ → List ℚ
  | [] => []
  | a :: l => insertAsc a (insertionSortAsc l)

/-- `sorted({...})`: the ascending list of distinct values. -/
def sortedUnique (l : List ℚ) : List ℚ := insertionSortAsc l.dedup

/-- The distinct x coordinates of the points, sorted ascending
(`xs = sorted({p[0] for p in points})`). -/
def gridXs (points : List (ℚ × ℚ × ℚ × ℚ)) : List ℚ :=
  sortedUnique (points.map ptX)

/-- The distinct y coordinates of the points, sorted ascending. -/
def gridYs (points : List (ℚ × ℚ × ℚ × ℚ)) : List ℚ :=
  sortedUnique (points.map ptY)

/-- Whether point `p` is written into cell `(i, j)` (row `i` is the
position of `p`'s y in `ys`, column `j` the position of `p`'s x in `xs` —
the `y_index`/`x_index` dicts of `build_grid`). -/
def hitsCell (xs ys : List ℚ) (i j : ℕ) (p : ℚ × ℚ × ℚ × ℚ) : Bool :=
  i == ys.indexOf (ptY p) && j == xs.indexOf (ptX p)

/-- One numpy cell assignment `grid[y_index[y], x_index[x]] = v` as a
function update. -/
def placeStep (xs ys : List ℚ) (g : ℕ → ℕ → Option ℚ) (p : ℚ × ℚ × ℚ × ℚ) :
    ℕ → ℕ → Option ℚ :=
  fun i j => if hitsCell xs ys i j p then some (ptV p) else g i j

/-- The placement loop of `build_grid`: starting from an all-`nan` grid
(`none` cells), write each point's value in order (later points
overwrite). -/
def placedCell (points : List (ℚ × ℚ × ℚ × ℚ)) (xs ys : List ℚ) :
    ℕ → ℕ → Option ℚ :=
  points.foldl (placeStep xs ys) (fun _ _ => none)

/-- The value of the LAST point written into cell `(i, j)`, if any —
the observable content of the placement loop. -/
def lastWrite (points : List (ℚ × ℚ × ℚ × ℚ)) (xs ys : List ℚ) (i j : ℕ) :
    Option ℚ :=
  ((points.filter (hitsCell xs ys i j)).getLast?).map ptV

/-- The non-`nan` values of the placed grid (`valid = grid[~nan_mask]`),
scanned row-major. -/
def placedValues (points : List (ℚ × ℚ × ℚ × ℚ)) (xs ys : List ℚ) : List ℚ :=
  (List.range ys.length).flatMap (fun i =>
    (List.range xs.length).filterMap (fun j => placedCell points xs ys i j))

/-- The gap-fill value of `build_grid`:
`float(valid.min()) if valid.size else 0.0`. -/
def fillValue (points : List (ℚ × ℚ × ℚ × ℚ)) (xs ys : List ℚ) : ℚ :=
  match placedValues points xs ys with
  | [] => 0
  | v :: vs => vs.foldl min v

/-- `build_grid`: distinct sorted coordinate axes, place every point,
fill the still-missing cells with the minimum placed value (0 when none),
return `(xs, ys, grid)` with `grid` of shape `(len(ys), len(xs))`. -/
def buildGrid (points : List (ℚ × ℚ × ℚ × ℚ)) :
    List ℚ × List ℚ × List (List ℚ) :=
  let xs := gridXs points
  let ys := gridYs points
  (xs, ys, (List.range ys.length).map (fun i =>
    (List.range xs.length).map (fun j =>
      (placedCell points xs ys i j).getD (fillValue points xs ys))))

theorem arangeQ_length (start stop step : ℚ) :
    (arangeQ start stop step).length = arangeLen start stop step := by
  simp only [arangeQ, arangeLen, List.length_map, List.length_range]

theorem arangeQ_getElem (start stop step : ℚ) (i : ℕ)
    (h : i < (arangeQ start stop step).length) :
    (arangeQ start stop step)[i] = start + (i : ℚ) * step := by
  simp only [arangeQ, List.getElem_map, List.getElem_range]

theorem arangeLen_pos (start stop step : ℚ) (hlt : start < stop) (hstep : 0 < step) :
    0 < arangeLen start stop step := by
  have hx : (0 : ℚ) < (stop - start) / step := div_pos (by linarith) hstep
  have hc := Int.ceil_pos.mpr hx
  simp only [arangeLen]
  omega

theorem arangeLen_cast (start stop step : ℚ) (hlt : start < stop) (hstep : 0 < step) :
    ((arangeLen start stop step : ℤ)) = ⌈(stop - start) / step⌉ := by
  have hx : (0 : ℚ) < (stop - start) / step := div_pos (by linarith) hstep
  exact Int.toNat_of_nonneg (le_of_lt (Int.ceil_pos.mpr hx))

theorem arangeQ_ne_nil (start stop step : ℚ) (hlt : start < stop) (hstep : 0 < step) :
    arangeQ start stop step ≠ [] := by
  have hpos := arangeLen_pos start stop step hlt hstep
  intro hnil
  have hlen := arangeQ_length start stop step
  rw [hnil] at hlen
  simp at hlen
  omega

theorem arangeQ_head (start stop step : ℚ) (hlt : start < stop) (hstep : 0 < step) :
    (arangeQ start stop step).head? = some start := by
  have hpos : 0 < (arangeQ start stop step).length := by
    rw [arangeQ_length]; exact arangeLen_pos start stop step hlt hstep
  rw [List.head?_eq_getElem?, List.getElem?_eq_getElem hpos, arangeQ_getElem]
  norm_num

theorem arangeQ_getLast (start stop step : ℚ) (hlt : start < stop) (hstep : 0 < step) :
    (arangeQ start stop step).getLast? =
      some (start + ((arangeLen start stop step : ℚ) - 1) * step) := by
  have hpos : 0 < (arangeQ start stop step).length := by
    rw [arangeQ_length]; exact arangeLen_pos start stop step hlt hstep
  have hlt' : (arangeQ start stop step).length - 1 < (arangeQ start stop step).length := by
    omega
  rw [List.getLast?_eq_getElem?, List.getElem?_eq_getElem hlt', arangeQ_getElem]
  have hcast : (((arangeQ start stop step).length - 1 : ℕ) : ℚ) =
      ((arangeLen start stop step : ℚ)) - 1 := by
    rw [arangeQ_length] at hpos ⊢
    have : (1 : ℕ) ≤ arangeLen start stop step := hpos
    push_cast [Nat.cast_sub this]
    ring
  rw [hcast]

theorem arangeQ_pairwise (start stop step : ℚ) (hstep : 0 < step) :
    List.Pairwise (fun a b => a < b) (arangeQ start stop step) := by
  unfold arangeQ
  rw [List.pairwise_map]
  refine (List.pairwise_lt_range _).imp ?_
  intro i j hij
  have : (i : ℚ) < (j : ℚ) := by exact_mod_cast hij
  nlinarith

theorem arangeQ_mem_lt (start stop step : ℚ) (hstep : 0 < step) :
    ∀ v ∈ arangeQ start stop step, v < stop := by
  intro v hv
  unfold arangeQ at hv
  rw [List.mem_map] at hv
  obtain ⟨i, hi, rfl⟩ := hv
  rw [List.mem_range] at hi
  have hiz : (i : ℤ) + 1 ≤ ⌈(stop - start) / step⌉ := by omega
  have hceil : (⌈(stop - start) / step⌉ : ℚ) < (stop - start) / step + 1 :=
    Int.ceil_lt_add_one _
  have hx : (i : ℚ) < (stop - start) / step := by
    have h1 : ((i : ℚ)) + 1 ≤ (⌈(stop - start) / step⌉ : ℚ) := by exact_mod_cast hiz
    linarith
  have hmul := mul_lt_mul_of_pos_right hx hstep
  have heq : (stop - start) / step * step = stop - start := by
    field_simp
  linarith

theorem arangeQ_last_ge (start stop step : ℚ) (hlt : start < stop) (hstep : 0 < step) :
    stop - step ≤ start + ((arangeLen start stop step : ℚ) - 1) * step := by
  have hle : (stop - start) / step ≤ ((arangeLen start stop step : ℚ)) := by
    have h1 := Int.le_ceil ((stop - start) / step)
    have h2 := arangeLen_cast start stop step hlt hstep
    rw [← h2] at h1
    exact_mod_cast h1
  have := (div_le_iff₀ hstep).mp hle
  nlinarith

theorem arangeLen_step3_of2 : arangeLen 0 (3 + epsArange) 2 = 2 := by
  have hc : ⌈((3 : ℚ) + 1 / 1000000000 - 0) / 2⌉ = 2 := by
    norm_num [Int.ceil_eq_iff]
  unfold arangeLen epsArange
  rw [hc]
  rfl

/-- C1: as stated the claim is FALSE: with `x_min = 0`, `x_max = 3`, `step = 2`
(a valid `ScanParams` whose span is not a multiple of the step),
`np.arange(0, 3 + 1e-9, 2)` ends at `2`, which is not within the `1e-9`
tolerance of `x_max = 3`. -/
theorem scanRunner_coords_counterexample :
    0 < (ScanParams.mk 0 3 0 3 2 0 1 1).step_mm ∧
    (ScanParams.mk 0 3 0 3 2 0 1 1).x_min ≤ (ScanParams.mk 0 3 0 3 2 0 1 1).x_max ∧
    (ScanParams.mk 0 3 0 3 2 0 1 1).y_min ≤ (ScanParams.mk 0 3 0 3 2 0 1 1).y_max ∧
    (xsOf (ScanParams.mk 0 3 0 3 2 0 1 1)).getLast? = some 2 ∧
    ¬ |(ScanParams.mk 0 3 0 3 2 0 1 1).x_max - 2| ≤ epsArange := by
  refine ⟨by norm_num, by norm_num, by norm_num, ?_, ?_⟩
  · have h := arangeQ_getLast 0 (3 + epsArange) 2 (by unfold epsArange; norm_num)
      (by norm_num)
    rw [arangeLen_step3_of2] at h
    unfold xsOf
    rw [h]
    norm_num
  · unfold epsArange
    rw [abs_of_nonneg (by norm_num)]
    norm_num

/-- C1 (amended): for every `ScanParams` with `step_mm > 0`,
`x_min ≤ x_max` and `y_min ≤ y_max`, the x and y coordinate sequences of
`ScanRunner.run` are nonempty, strictly ascending, start exactly at the
minimum, stay below `max + 1e-9`, and their last element is within one
step below the maximum.  (The original claim that the last element always
equals the maximum within the `1e-9` tolerance fails whenever the span is
not a multiple of the step; the endpoint is then undershot by up to one
step, as the counterexample shows.) -/
theorem scanRunner_coords (p : ScanParams) (hstep : 0 < p.step_mm)
    (hx : p.x_min ≤ p.x_max) (hy : p.y_min ≤ p.y_max) :
    (xsOf p ≠ [] ∧ (xsOf p).head? = some p.x_min ∧
      List.Pairwise (fun a b => a < b) (xsOf p) ∧
      (∀ v ∈ xsOf p, v < p.x_max + epsArange) ∧
      (∀ l, (xsOf p).getLast? = some l → p.x_max - l < p.step_mm)) ∧
    (ysOf p ≠ [] ∧ (ysOf p).head? = some p.y_min ∧
      List.Pairwise (fun a b => a < b) (ysOf p) ∧
      (∀ v ∈ ysOf p, v < p.y_max + epsArange) ∧
      (∀ l, (ysOf p).getLast? = some l → p.y_max - l < p.step_mm)) := by
  have heps : (0 : ℚ) < epsArange := by unfold epsArange; norm_num
  have hxlt : p.x_min < p.x_max + epsArange := by linarith
  have hylt : p.y_min < p.y_max + epsArange := by linarith
  constructor
  · refine ⟨arangeQ_ne_nil _ _ _ hxlt hstep, arangeQ_head _ _ _ hxlt hstep,
      arangeQ_pairwise _ _ _ hstep, arangeQ_mem_lt _ _ _ hstep, ?_⟩
    intro l hl
    unfold xsOf at hl
    rw [arangeQ_getLast _ _ _ hxlt hstep] at hl
    have := arangeQ_last_ge p.x_min (p.x_max + epsArange) p.step_mm hxlt hstep
    cases hl
    linarith
  · refine ⟨arangeQ_ne_nil _ _ _ hylt hstep, arangeQ_head _ _ _ hylt hstep,
      arangeQ_pairwise _ _ _ hstep, arangeQ_mem_lt _ _ _ hstep, ?_⟩
    intro l hl
    unfold ysOf at hl
    rw [arangeQ_getLast _ _ _ hylt hstep] at hl
    have := arangeQ_last_ge p.y_min (p.y_max + epsArange) p.step_mm hylt hstep
    cases hl
    linarith

/-- Witness for `scanRunner_coords` at the concrete parameters
`x ∈ [0,1]`, `y ∈ [0,1]`, `step = 1`. -/
theorem scanRunner_coords_witness :
    0 < (ScanParams.mk 0 1 0 1 1 0 1 1).step_mm ∧
    (ScanParams.mk 0 1 0 1 1 0 1 1).x_min ≤ (ScanParams.mk 0 1 0 1 1 0 1 1).x_max ∧
    (ScanParams.mk 0 1 0 1 1 0 1 1).y_min ≤ (ScanParams.mk 0 1 0 1 1 0 1 1).y_max ∧
    ((xsOf (ScanParams.mk 0 1 0 1 1 0 1 1) ≠ [] ∧
      (xsOf (ScanParams.mk 0 1 0 1 1 0 1 1)).head? =
        some (ScanParams.mk 0 1 0 1 1 0 1 1).x_min ∧
      List.Pairwise (fun a b => a < b) (xsOf (ScanParams.mk 0 1 0 1 1 0 1 1)) ∧
      (∀ v ∈ xsOf (ScanParams.mk 0 1 0 1 1 0 1 1),
        v < (ScanParams.mk 0 1 0 1 1 0 1 1).x_max + epsArange) ∧
      (∀ l, (xsOf (ScanParams.mk 0 1 0 1 1 0 1 1)).getLast? = some l →
        (ScanParams.mk 0 1 0 1 1 0 1 1).x_max - l <
          (ScanParams.mk 0 1 0 1 1 0 1 1).step_mm)) ∧
    (ysOf (ScanParams.mk 0 1 0 1 1 0 1 1) ≠ [] ∧
      (ysOf (ScanParams.mk 0 1 0 1 1 0 1 1)).head? =
        some (ScanParams.mk 0 1 0 1 1 0 1 1).y_min ∧
      List.Pairwise (fun a b => a < b) (ysOf (ScanParams.mk 0 1 0 1 1 0 1 1)) ∧
      (∀ v ∈ ysOf (ScanParams.mk 0 1 0 1 1 0 1 1),
        v < (ScanParams.mk 0 1 0 1 1 0 1 1).y_max + epsArange) ∧
      (∀ l, (ysOf (ScanParams.mk 0 1 0 1 1 0 1 1)).getLast? = some l →
        (ScanParams.mk 0 1 0 1 1 0 1 1).y_max - l <
          (ScanParams.mk 0 1 0 1 1 0 1 1).step_mm))) :=
  ⟨by norm_num, by norm_num, by norm_num,
    scanRunner_coords (ScanParams.mk 0 1 0 1 1 0 1 1) (by norm_num) (by norm_num)
      (by norm_num)⟩

theorem sweepPoints_stop_eq (d : DriverOutcomes) (traces : List TraceInfo)
    (pts : List (ℚ × ℚ)) (hne : pts ≠ []) :
    sweepPoints true d traces pts = ([], some "User stopped") := by
  cases pts with
  | nil => exact absurd rfl hne
  | cons hd tl => simp [sweepPoints]

theorem scanPoints_ne_nil (p : ScanParams) (hstep : 0 < p.step_mm)
    (hx : p.x_min ≤ p.x_max) (hy : p.y_min ≤ p.y_max) :
    scanPoints p ≠ [] := by
  have heps : (0 : ℚ) < epsArange := by unfold epsArange; norm_num
  have hxne := arangeQ_ne_nil p.x_min (p.x_max + epsArange) p.step_mm (by linarith) hstep
  have hyne := arangeQ_ne_nil p.y_min (p.y_max + epsArange) p.step_mm (by linarith) hstep
  obtain ⟨x, hxm⟩ := List.exists_mem_of_ne_nil _ hxne
  obtain ⟨y, hym⟩ := List.exists_mem_of_ne_nil _ hyne
  have : (x, y) ∈ scanPoints p := by
    unfold scanPoints
    rw [List.mem_flatMap]
    exact ⟨y, hym, List.mem_map.mpr ⟨x, hxm, rfl⟩⟩
  exact List.ne_nil_of_mem this

theorem sweepPoints_stop_scan (p : ScanParams) (hstep : 0 < p.step_mm)
    (hx : p.x_min ≤ p.x_max) (hy : p.y_min ≤ p.y_max) :
    ∀ (d : DriverOutcomes) (traces : List TraceInfo),
      sweepPoints true d traces (scanPoints p) = ([], some "User stopped") :=
  fun d traces =>
    sweepPoints_stop_eq d traces (scanPoints p) (scanPoints_ne_nil p hstep hx hy)

/-- C2: if the stop flag is set before the run issues any motion command,
and the pre-sweep calls (directory creation, both connects, `set_frequency`,
`home`) return normally, then the run finishes with
`(task_id, ok=False, "User stopped")`, no `move_to` is ever issued, both
`disconnect`s are still invoked, and the outcome does not depend on the
disconnect outcomes (their exceptions are swallowed by the bare
`except Exception: pass` in the `finally` block). -/
theorem scanRunner_stop_before_move (taskId : String) (p : ScanParams)
    (traces : List TraceInfo) (d : DriverOutcomes)
    (hstep : 0 < p.step_mm) (hx : p.x_min ≤ p.x_max) (hy : p.y_min ≤ p.y_max)
    (h1 : d.makeTaskDir = .ok ()) (h2 : d.motionConnect = .ok ())
    (h3 : d.spectrumConnect = .ok ()) (h4 : d.setFrequency = .ok ())
    (h5 : d.home = .ok ()) :
    (runScan taskId p traces true d).finished = (taskId, false, "User stopped") ∧
    (runScan taskId p traces true d).moves = [] ∧
    (runScan taskId p traces true d).motionDisconnected = true ∧
    (runScan taskId p traces true d).spectrumDisconnected = true ∧
    ∀ mdis sdis : Except String Unit,
      (runScan taskId p traces true
        { d with motionDisconnect := mdis, spectrumDisconnect := sdis }).finished =
        (taskId, false, "User stopped") := by
  have hsweep := sweepPoints_stop_scan p hstep hx hy
  refine ⟨?_, ?_, rfl, rfl, ?_⟩
  · simp only [runScan, h1, h2, h3, h4, h5, hsweep]
  · simp only [runScan, h1, h2, h3, h4, h5, hsweep]
  · intro mdis sdis
    simp only [runScan, h1, h2, h3, h4, h5, hsweep]

/-- Witness for `scanRunner_stop_before_move`: all-succeeding drivers, a
1×1 scan area, one trace. -/
theorem scanRunner_stop_before_move_witness :
    0 < (ScanParams.mk 0 1 0 1 1 0 1 1).step_mm ∧
    (ScanParams.mk 0 1 0 1 1 0 1 1).x_min ≤ (ScanParams.mk 0 1 0 1 1 0 1 1).x_max ∧
    (ScanParams.mk 0 1 0 1 1 0 1 1).y_min ≤ (ScanParams.mk 0 1 0 1 1 0 1 1).y_max ∧
    allOkOutcomes.makeTaskDir = .ok () ∧
    allOkOutcomes.motionConnect = .ok () ∧
    allOkOutcomes.spectrumConnect = .ok () ∧
    allOkOutcomes.setFrequency = .ok () ∧
    allOkOutcomes.home = .ok () ∧
    ((runScan "task-1" (ScanParams.mk 0 1 0 1 1 0 1 1) [TraceInfo.mk "T1" "S21" "dB"]
        true allOkOutcomes).finished = ("task-1", false, "User stopped") ∧
      (runScan "task-1" (ScanParams.mk 0 1 0 1 1 0 1 1) [TraceInfo.mk "T1" "S21" "dB"]
        true allOkOutcomes).moves = [] ∧
      (runScan "task-1" (ScanParams.mk 0 1 0 1 1 0 1 1) [TraceInfo.mk "T1" "S21" "dB"]
        true allOkOutcomes).motionDisconnected = true ∧
      (runScan "task-1" (ScanParams.mk 0 1 0 1 1 0 1 1) [TraceInfo.mk "T1" "S21" "dB"]
        true allOkOutcomes).spectrumDisconnected = true ∧
      ∀ mdis sdis : Except String Unit,
        (runScan "task-1" (ScanParams.mk 0 1 0 1 1 0 1 1) [TraceInfo.mk "T1" "S21" "dB"]
          true
          { allOkOutcomes with
              motionDisconnect := mdis
              spectrumDisconnect := sdis }).finished =
          ("task-1", false, "User stopped")) :=
  ⟨by norm_num, by norm_num, by norm_num, rfl, rfl, rfl, rfl, rfl,
    scanRunner_stop_before_move "task-1" (ScanParams.mk 0 1 0 1 1 0 1 1)
      [TraceInfo.mk "T1" "S21" "dB"] allOkOutcomes (by norm_num) (by norm_num)
      (by norm_num) rfl rfl rfl rfl rfl⟩

theorem buildTableFromPoints_length (points : List LutPoint) :
    (buildTableFromPoints points).length = 256 := by
  simp [buildTableFromPoints, linspace256]

/-- C3: as stated the claim is FALSE: a single control point (fewer than 2)
is accepted by `get_lut` — `np.interp` over one sample point yields a
constant channel — and a 256-row table is returned instead of an
`InvalidLUTDefinition` error. -/
theorem lut_build_counterexample :
    [LutPoint.mk (1/2) 10 20 30].length < 2 ∧
    getLut "gray" (some [LutPoint.mk (1/2) 10 20 30]) =
      .ok (LUT.mk "gray" (buildTableFromPoints [LutPoint.mk (1/2) 10 20 30])) ∧
    (buildTableFromPoints [LutPoint.mk (1/2) 10 20 30]).length = 256 := by
  refine ⟨by norm_num, rfl, buildTableFromPoints_length _⟩

/-- C3 (amended): `get_lut` fails (with `ValueError("Invalid LUT json: …")`,
not a dedicated `InvalidLUTDefinition`) exactly when the `points` entry is
missing or empty; every nonempty control-point list — including a single
point, and points whose `t` lies outside `[0, 1]` — succeeds and yields a
256-row RGB table. -/
theorem lut_build (name : String) (points : Option (List LutPoint)) :
    ((getLut name points).isOk = false ↔ points = none ∨ points = some []) ∧
    (∀ l, getLut name points = .ok l → l.table.length = 256) := by
  constructor
  · cases points with
    | none => simp [getLut, Except.isOk, Except.toBool]
    | some pts =>
      cases pts with
      | nil => simp [getLut, Except.isOk, Except.toBool]
      | cons hd tl => simp [getLut, Except.isOk, Except.toBool]
  · intro l hl
    cases points with
    | none => simp [getLut] at hl
    | some pts =>
      cases pts with
      | nil => simp [getLut] at hl
      | cons hd tl =>
        simp [getLut] at hl
        rw [← hl]
        exact buildTableFromPoints_length _

/-- Witness for `lut_build` at the two-point black→white gray map, and at a
point with `t` outside `[0, 1]` (still accepted). -/
theorem lut_build_witness :
    ((getLut "gray" (some [LutPoint.mk 0 0 0 0, LutPoint.mk 1 255 255 255])).isOk
        = false ↔
      (some [LutPoint.mk 0 0 0 0, LutPoint.mk 1 255 255 255]
          : Option (List LutPoint)) = none ∨
        (some [LutPoint.mk 0 0 0 0, LutPoint.mk 1 255 255 255]
          : Option (List LutPoint)) = some []) ∧
    (LUT.mk "gray"
      (buildTableFromPoints [LutPoint.mk 0 0 0 0, LutPoint.mk 1 255 255 255])).table.length
      = 256 ∧
    (LUT.mk "weird" (buildTableFromPoints [LutPoint.mk 2 1 2 3])).table.length = 256 :=
  ⟨(lut_build "gray" (some [LutPoint.mk 0 0 0 0, LutPoint.mk 1 255 255 255])).1,
    (lut_build "gray" (some [LutPoint.mk 0 0 0 0, LutPoint.mk 1 255 255 255])).2 _ rfl,
    (lut_build "weird" (some [LutPoint.mk 2 1 2 3])).2 _ rfl⟩

/-- C4: saving a `TraceGrid` and loading it back under the same trace name
returns a grid whose `xs`, `ys`, `freqs`, `values` and `unit` (and
`trace_name`) are identical to the saved ones — the float32 arrays
round-trip bit-identically through the npz bundle. -/
theorem traceStore_roundtrip (store : List (String × TraceGrid)) (g : TraceGrid) :
    storeLoadGrid (storeSaveGrid store g) g.trace_name = some g := by
  simp [storeLoadGrid, storeSaveGrid, astypeFloat32, astypeFloat32v, List.lookup]

/-- C7: as stated the claim is FALSE: `_safe_name` keeps any character
Python's Unicode `isalnum()` accepts, not only `[A-Za-z0-9_.-]`; the
Latin-1 letter `é` is outside the claimed class yet kept unchanged, where
the claim requires it replaced by `_`. -/
theorem traceStore_sanitize_counterexample :
    safeName "é" = "é" ∧ specSanitizeName "é" = "_" ∧
    safeName "é" ≠ specSanitizeName "é" := by
  refine ⟨by decide, by decide, by decide⟩

/-- C7 (amended): the storage key replaces each character that is neither
Python-alphanumeric (Unicode `isalnum`, which also accepts non-ASCII
letters such as `é`) nor one of `_ - .` with `_`; on names whose characters
are classified identically by Python's `isalnum` and the claimed ASCII
class `[A-Za-z0-9]` — in particular all-ASCII names — the key is exactly
the claimed character-wise replacement.  The bundle is stored under the
sanitized key while its `trace_name` field retains the original
unsanitized name. -/
theorem traceStore_sanitize (name : String)
    (hagree : ∀ c ∈ name.data, specAsciiAlnum c = pyIsAlnum c) :
    safeName name = specSanitizeName name ∧
    ∀ (store : List (String × TraceGrid)) (g : TraceGrid),
      ∃ b, (storeSaveGrid store g).lookup (safeName g.trace_name) = some b ∧
        b.trace_name = g.trace_name := by
  constructor
  · unfold safeName specSanitizeName
    congr 1
    refine List.map_congr_left ?_
    intro c hc
    unfold pySafeChar
    rw [hagree c hc]
  · intro store g
    refine ⟨TraceGrid.mk g.trace_name (astypeFloat32 g.xs) (astypeFloat32 g.ys)
      (astypeFloat32 g.freqs) (astypeFloat32v g.values) g.unit, ?_, rfl⟩
    simp [storeSaveGrid, List.lookup]

/-- Witness for `traceStore_sanitize` at the ASCII trace name
`"Trc1_S21"`. -/
theorem traceStore_sanitize_witness :
    (∀ c ∈ ("Trc1_S21" : String).data, specAsciiAlnum c = pyIsAlnum c) ∧
    (safeName "Trc1_S21" = specSanitizeName "Trc1_S21" ∧
      ∀ (store : List (String × TraceGrid)) (g : TraceGrid),
        ∃ b, (storeSaveGrid store g).lookup (safeName g.trace_name) = some b ∧
          b.trace_name = g.trace_name) :=
  ⟨by decide, traceStore_sanitize "Trc1_S21" (by decide)⟩

theorem nextQueuedGo_some (l : List QueueItem) :
    ∀ (b r : QueueItem), nextQueuedGo (some b) l = some r →
      (r = b ∨ r ∈ l) ∧ r.created_at ≤ b.created_at ∧
        ∀ x ∈ l, r.created_at ≤ x.created_at := by
  induction l with
  | nil =>
    intro b r h
    simp only [nextQueuedGo, Option.some.injEq] at h
    subst h
    exact ⟨Or.inl rfl, le_refl _, by simp⟩
  | cons it rest ih =>
    intro b r h
    simp only [nextQueuedGo] at h
    by_cases hlt : it.created_at.data < b.created_at.data
    · rw [if_pos hlt] at h
      obtain ⟨hmem, hle, hall⟩ := ih it r h
      have hstr : it.created_at < b.created_at := String.lt_iff_toList_lt.mpr hlt
      refine ⟨?_, le_trans hle (le_of_lt hstr), ?_⟩
      · rcases hmem with h1 | h1
        · exact Or.inr (by simp [h1])
        · exact Or.inr (List.mem_cons_of_mem _ h1)
      · intro x hx
        rcases List.mem_cons.mp hx with h1 | h1
        · rw [h1]; exact hle
        · exact hall x h1
    · rw [if_neg hlt] at h
      obtain ⟨hmem, hle, hall⟩ := ih b r h
      have hble : b.created_at ≤ it.created_at :=
        le_of_not_lt (fun hc => hlt (String.lt_iff_toList_lt.mp hc))
      refine ⟨?_, hle, ?_⟩
      · rcases hmem with h1 | h1
        · exact Or.inl h1
        · exact Or.inr (List.mem_cons_of_mem _ h1)
      · intro x hx
        rcases List.mem_cons.mp hx with h1 | h1
        · rw [h1]; exact le_trans hle hble
        · exact hall x h1

theorem nextQueuedGo_ne_none (l : List QueueItem) :
    ∀ b, nextQueuedGo (some b) l ≠ none := by
  induction l with
  | nil => intro b h; simp [nextQueuedGo] at h
  | cons it rest ih => intro b h; exact ih _ h

/-- C5: `next_queued()` returns an item of status `queued` whose
`created_at` is minimal among all queued items (the oldest, when creation
times are distinct), and `none` exactly when no queued item exists; and in
the concrete A/B/C scenario (strictly increasing creation times, each
returned item marked `running` then `done` before the next pull) the pulls
yield A, then B, then C, then none. -/
theorem queue_fifo (table : List QueueItem) :
    (∀ it, nextQueued table = some it →
      it ∈ table ∧ it.status = "queued" ∧
        ∀ other ∈ table, other.status = "queued" →
          it.created_at ≤ other.created_at) ∧
    (nextQueued table = none ↔ ∀ it ∈ table, it.status ≠ "queued") ∧
    (nextQueued fifoTable0 =
        some (QueueItem.mk "A" "2024-01-01 00:00:01" "queued" "p" "t" none "") ∧
      nextQueued (markRunningThenDone fifoTable0 "A") =
        some (QueueItem.mk "B" "2024-01-01 00:00:02" "queued" "p" "t" none "") ∧
      nextQueued (markRunningThenDone (markRunningThenDone fifoTable0 "A") "B") =
        some (QueueItem.mk "C" "2024-01-01 00:00:03" "queued" "p" "t" none "") ∧
      nextQueued (markRunningThenDone
        (markRunningThenDone (markRunningThenDone fifoTable0 "A") "B") "C") = none) := by
  refine ⟨?_, ?_, by decide, by decide, by decide, by decide⟩
  · intro it h
    unfold nextQueued at h
    rcases hf : table.filter (fun x => x.status == "queued") with _ | ⟨hd, tl⟩
    · rw [hf] at h
      simp [nextQueuedGo] at h
    · rw [hf] at h
      simp only [nextQueuedGo] at h
      obtain ⟨hmem, hle, hall⟩ := nextQueuedGo_some tl hd it h
      have hitf : it ∈ table.filter (fun x => x.status == "queued") := by
        rw [hf]
        rcases hmem with h1 | h1
        · rw [h1]; exact List.mem_cons_self _ _
        · exact List.mem_cons_of_mem _ h1
      have hit := List.mem_filter.mp hitf
      refine ⟨hit.1, by simpa using hit.2, ?_⟩
      intro other hother hstat
      have hof : other ∈ table.filter (fun x => x.status == "queued") :=
        List.mem_filter.mpr ⟨hother, by simpa using hstat⟩
      rw [hf] at hof
      rcases List.mem_cons.mp hof with h1 | h1
      · rw [h1]; exact hle
      · exact hall other h1
  · unfold nextQueued
    constructor
    · intro h it hit hstat
      rcases hf : table.filter (fun x => x.status == "queued") with _ | ⟨hd, tl⟩
      · have : it ∈ table.filter (fun x => x.status == "queued") :=
          List.mem_filter.mpr ⟨hit, by simpa using hstat⟩
        rw [hf] at this
        exact absurd this (List.not_mem_nil _)
      · rw [hf] at h
        simp only [nextQueuedGo] at h
        exact nextQueuedGo_ne_none tl hd h
    · intro h
      have : table.filter (fun x => x.status == "queued") = [] := by
        rw [List.filter_eq_nil_iff]
        intro a ha
        simpa using h a ha
      rw [this]
      rfl

/-- Witness for `queue_fifo`: the oldest-queued characterization applied to
the concrete three-item queue, whose first pull is item A. -/
theorem queue_fifo_witness :
    nextQueued fifoTable0 =
      some (QueueItem.mk "A" "2024-01-01 00:00:01" "queued" "p" "t" none "") ∧
    ((QueueItem.mk "A" "2024-01-01 00:00:01" "queued" "p" "t" none "") ∈ fifoTable0 ∧
      (QueueItem.mk "A" "2024-01-01 00:00:01" "queued" "p" "t" none "").status =
        "queued" ∧
      ∀ other ∈ fifoTable0, other.status = "queued" →
        (QueueItem.mk "A" "2024-01-01 00:00:01" "queued" "p" "t" none "").created_at ≤
          other.created_at) :=
  ⟨by decide, (queue_fifo fifoTable0).1 _ (by decide)⟩

theorem mem_deleteFold (curr : Option String) (running : Bool) (ids : List String)
    (tbl : List QueueItem) (it : QueueItem) :
    it ∈ ids.foldl (fun tbl qid =>
        if curr == some qid && running then tbl else queueDelete tbl qid) tbl ↔
      it ∈ tbl ∧ ∀ qid ∈ ids, ¬(curr == some qid && running) = true → it.id ≠ qid := by
  induction ids generalizing tbl with
  | nil => simp
  | cons q qs ih =>
    simp only [List.foldl_cons]
    by_cases hg : (curr == some q && running) = true
    · rw [if_pos hg, ih]
      constructor
      · rintro ⟨hm, hall⟩
        refine ⟨hm, ?_⟩
        intro qid hqid hneg
        rcases List.mem_cons.mp hqid with h1 | h2
        · rw [h1] at hneg; exact absurd hg hneg
        · exact hall qid h2 hneg
      · rintro ⟨hm, hall⟩
        exact ⟨hm, fun qid hqid hneg => hall qid (List.mem_cons_of_mem _ hqid) hneg⟩
    · rw [if_neg hg, ih]
      constructor
      · rintro ⟨hm, hall⟩
        have hsplit : it ∈ tbl ∧ it.id ≠ q := by
          simpa [queueDelete, List.mem_filter, bne_iff_ne] using hm
        refine ⟨hsplit.1, ?_⟩
        intro qid hqid hneg
        rcases List.mem_cons.mp hqid with h1 | h2
        · rw [h1]; exact hsplit.2
        · exact hall qid h2 hneg
      · rintro ⟨hm, hall⟩
        refine ⟨?_, fun qid hqid hneg => hall qid (List.mem_cons_of_mem _ hqid) hneg⟩
        have hne : it.id ≠ q := hall q (List.mem_cons_self _ _) hg
        simp [queueDelete, List.mem_filter, bne_iff_ne, hm, hne]

/-- C8: as stated the claim is FALSE: a queue item whose row status is
`"running"` but which is not the UI's current executing item (here:
no current item) is deleted — both by the manager's unconditional
`delete` and through `MainWindow.delete_selected`. -/
theorem queue_delete_running_counterexample :
    (QueueItem.mk "A" "2024-01-01 00:00:01" "running" "p" "t" none "") ∈
      (QueueUiState.mk [QueueItem.mk "A" "2024-01-01 00:00:01" "running" "p" "t" none ""]
        none true).table ∧
    (deleteSelected
      (QueueUiState.mk [QueueItem.mk "A" "2024-01-01 00:00:01" "running" "p" "t" none ""]
        none true) ["A"]).table = [] ∧
    queueDelete [QueueItem.mk "A" "2024-01-01 00:00:01" "running" "p" "t" none ""] "A" =
      [] := by
  refine ⟨by decide, by decide, by decide⟩

/-- C8 (amended): `ScanQueueManager.delete` removes the row regardless of
its status; the UI's `delete_selected` refuses a selected id only when it
is the currently executing queue item while the queue loop is active.
Hence an item survives `delete_selected` iff it was not selected, or it is
the guarded current running item; a `"running"`-status row that is not the
current item (or when the queue loop is inactive) is deleted. -/
theorem queue_delete_running (st : QueueUiState) (ids : List String) (it : QueueItem) :
    it ∈ (deleteSelected st ids).table ↔
      it ∈ st.table ∧
        (it.id ∈ ids → st.currentId = some it.id ∧ st.queueRunning = true) := by
  unfold deleteSelected
  rw [mem_deleteFold]
  constructor
  · rintro ⟨hm, hall⟩
    refine ⟨hm, ?_⟩
    intro hin
    by_contra hng
    have hb : ¬(st.currentId == some it.id && st.queueRunning) = true := by
      simp only [Bool.and_eq_true, beq_iff_eq]
      intro hc
      exact hng ⟨hc.1, hc.2⟩
    exact hall it.id hin hb rfl
  · rintro ⟨hm, himp⟩
    refine ⟨hm, ?_⟩
    intro qid hqid hneg heq
    rw [← heq] at hqid
    obtain ⟨h1, h2⟩ := himp hqid
    apply hneg
    rw [heq] at h1
    simp [h1, h2]

theorem eps12_eq : eps12 = 1 / 1000000000000 := by
  rw [eps12, Rat.mk'_eq_divInt, Rat.divInt_eq_div]
  norm_num

theorem foldl_min_le_init (vs : List ℚ) : ∀ v : ℚ, vs.foldl min v ≤ v := by
  induction vs with
  | nil => intro v; exact le_refl _
  | cons a as ih =>
    intro v
    exact le_trans (ih (min v a)) (min_le_left _ _)

theorem foldl_min_le_mem (vs : List ℚ) :
    ∀ (v x : ℚ), x ∈ vs → vs.foldl min v ≤ x := by
  induction vs with
  | nil => intro v x hx; simp at hx
  | cons a as ih =>
    intro v x hx
    rcases List.mem_cons.mp hx with h1 | h1
    · rw [h1]
      exact le_trans (foldl_min_le_init as (min v a)) (min_le_right _ _)
    · exact ih (min v a) x h1

theorem foldl_min_mem (vs : List ℚ) :
    ∀ v : ℚ, vs.foldl min v = v ∨ vs.foldl min v ∈ vs := by
  induction vs with
  | nil => intro v; exact Or.inl rfl
  | cons a as ih =>
    intro v
    rcases ih (min v a) with h | h
    · rw [List.foldl_cons, h]
      rcases le_total v a with hva | hav
      · exact Or.inl (min_eq_left hva)
      · exact Or.inr (by rw [min_eq_right hav]; exact List.mem_cons_self _ _)
    · exact Or.inr (List.mem_cons_of_mem _ h)

theorem foldl_max_mem (vs : List ℚ) :
    ∀ v : ℚ, vs.foldl max v = v ∨ vs.foldl max v ∈ vs := by
  induction vs with
  | nil => intro v; exact Or.inl rfl
  | cons a as ih =>
    intro v
    rcases ih (max v a) with h | h
    · rw [List.foldl_cons, h]
      rcases le_total v a with hva | hav
      · exact Or.inr (by rw [max_eq_right hva]; exact List.mem_cons_self _ _)
      · exact Or.inl (max_eq_left hav)
    · exact Or.inr (List.mem_cons_of_mem _ h)

theorem gridMin_const (grid : List (List ℚ)) (c : ℚ)
    (hne : grid.flatMap id ≠ [])
    (hconst : ∀ row ∈ grid, ∀ v ∈ row, v = c) :
    gridMin grid = c := by
  have hall : ∀ x ∈ grid.flatMap id, x = c := by
    intro x hx
    rw [List.mem_flatMap] at hx
    obtain ⟨row, hrow, hxr⟩ := hx
    exact hconst row hrow x hxr
  unfold gridMin
  rcases hf : grid.flatMap id with _ | ⟨v, vs⟩
  · exact absurd hf hne
  · rw [hf] at hall
    show vs.foldl min v = c
    rcases foldl_min_mem vs v with h | h
    · rw [h]; exact hall v (List.mem_cons_self _ _)
    · exact hall _ (List.mem_cons_of_mem _ h)

theorem gridMax_const (grid : List (List ℚ)) (c : ℚ)
    (hne : grid.flatMap id ≠ [])
    (hconst : ∀ row ∈ grid, ∀ v ∈ row, v = c) :
    gridMax grid = c := by
  have hall : ∀ x ∈ grid.flatMap id, x = c := by
    intro x hx
    rw [List.mem_flatMap] at hx
    obtain ⟨row, hrow, hxr⟩ := hx
    exact hconst row hrow x hxr
  unfold gridMax
  rcases hf : grid.flatMap id with _ | ⟨v, vs⟩
  · exact absurd hf hne
  · rw [hf] at hall
    show vs.foldl max v = c
    rcases foldl_max_mem vs v with h | h
    · rw [h]; exact hall v (List.mem_cons_self _ _)
    · exact hall _ (List.mem_cons_of_mem _ h)

theorem applyLutNorm_degenerate (grid : List (List ℚ)) (autoscale : Bool)
    (vmin? vmax? : Option ℚ)
    (h : (effBounds grid autoscale vmin? vmax?).2 -
      (effBounds grid autoscale vmin? vmax?).1 < eps12) :
    ∀ row ∈ (applyLutNorm grid autoscale vmin? vmax?).1, ∀ v ∈ row, v = 0 := by
  intro row hrow v hv
  have hrow2 : row ∈ clipGrid (normGrid grid (effBounds grid autoscale vmin? vmax?).1
      (effBounds grid autoscale vmin? vmax?).2) := hrow
  rw [normGrid, if_pos h] at hrow2
  simp only [clipGrid, List.map_map, List.mem_map] at hrow2
  obtain ⟨row0, _, hr⟩ := hrow2
  rw [← hr] at hv
  simp only [Function.comp, List.map_map, List.mem_map] at hv
  obtain ⟨u, _, hu⟩ := hv
  rw [← hu]
  unfold clamp01
  norm_num

/-- C6: in the normalization step of `apply_lut`, whenever the effective
bounds satisfy `vmax - vmin < 1e-12` the normalized grid is 0 everywhere
(the division branch is never taken); otherwise each cell is
`(v - vmin) / (vmax - vmin)` clamped to `[0, 1]`; and for a nonempty
all-constant grid under autoscale the reported `vmin` and `vmax` both
equal the constant cell value (and the normalized grid is 0 everywhere). -/
theorem heatmap_normalize (grid : List (List ℚ)) (autoscale : Bool)
    (vmin? vmax? : Option ℚ) :
    ((applyLutNorm grid autoscale vmin? vmax?).2.2 -
        (applyLutNorm grid autoscale vmin? vmax?).2.1 < eps12 →
      ∀ row ∈ (applyLutNorm grid autoscale vmin? vmax?).1, ∀ v ∈ row, v = 0) ∧
    (¬((applyLutNorm grid autoscale vmin? vmax?).2.2 -
        (applyLutNorm grid autoscale vmin? vmax?).2.1 < eps12) →
      (applyLutNorm grid autoscale vmin? vmax?).1 =
        grid.map (fun row => row.map (fun v =>
          clamp01 ((v - (applyLutNorm grid autoscale vmin? vmax?).2.1) /
            ((applyLutNorm grid autoscale vmin? vmax?).2.2 -
              (applyLutNorm grid autoscale vmin? vmax?).2.1))))) ∧
    (∀ c : ℚ, autoscale = true → grid.flatMap id ≠ [] →
      (∀ row ∈ grid, ∀ v ∈ row, v = c) →
      (applyLutNorm grid autoscale vmin? vmax?).2.1 = c ∧
      (applyLutNorm grid autoscale vmin? vmax?).2.2 = c ∧
      ∀ row ∈ (applyLutNorm grid autoscale vmin? vmax?).1, ∀ v ∈ row, v = 0) := by
  refine ⟨?_, ?_, ?_⟩
  · exact fun h => applyLutNorm_degenerate grid autoscale vmin? vmax? h
  · intro h
    have h2 : ¬((effBounds grid autoscale vmin? vmax?).2 -
        (effBounds grid autoscale vmin? vmax?).1 < eps12) := h
    show clipGrid (normGrid grid (effBounds grid autoscale vmin? vmax?).1
      (effBounds grid autoscale vmin? vmax?).2) = _
    rw [normGrid, if_neg h2]
    unfold clipGrid
    rw [List.map_map]
    refine List.map_congr_left ?_
    intro row hr
    simp only [Function.comp]
    rw [List.map_map]
    rfl
  · intro c hauto hne hconst
    subst hauto
    have hmin : gridMin grid = c := gridMin_const grid c hne hconst
    have hmax : gridMax grid = c := gridMax_const grid c hne hconst
    have hb : effBounds grid true vmin? vmax? = (c, c) := by
      show (gridMin grid, gridMax grid) = (c, c)
      rw [hmin, hmax]
    refine ⟨?_, ?_, ?_⟩
    · show (effBounds grid true vmin? vmax?).1 = c
      rw [hb]
    · show (effBounds grid true vmin? vmax?).2 = c
      rw [hb]
    · refine applyLutNorm_degenerate grid true vmin? vmax? ?_
      rw [hb]
      rw [eps12_eq]
      norm_num

/-- Witness for `heatmap_normalize`: the constant 2×2 grid of value 5 under
autoscale reports `vmin = vmax = 5` and normalizes to 0 everywhere. -/
theorem heatmap_normalize_witness :
    (([[(5 : ℚ), 5], [5, 5]] : List (List ℚ)).flatMap id ≠ [] ∧
      ∀ row ∈ ([[(5 : ℚ), 5], [5, 5]] : List (List ℚ)), ∀ v ∈ row, v = 5) ∧
    (applyLutNorm [[(5 : ℚ), 5], [5, 5]] true none none).2.1 = 5 ∧
    (applyLutNorm [[(5 : ℚ), 5], [5, 5]] true none none).2.2 = 5 ∧
    (∀ row ∈ (applyLutNorm [[(5 : ℚ), 5], [5, 5]] true none none).1,
      ∀ v ∈ row, v = 0) :=
  ⟨⟨by decide, by decide⟩,
    (heatmap_normalize [[(5 : ℚ), 5], [5, 5]] true none none).2.2 5 rfl (by decide)
      (by decide)⟩

theorem clamp01_bounds (q : ℚ) : 0 ≤ clamp01 q ∧ clamp01 q ≤ 1 := by
  unfold clamp01
  constructor
  · exact le_max_left _ _
  · exact max_le (by norm_num) (min_le_left _ _)

theorem roundHalfEven_bounds (q : ℚ) (h0 : 0 ≤ q) (h255 : q ≤ 255) :
    0 ≤ roundHalfEven q ∧ roundHalfEven q ≤ 255 := by
  have hf0 : 0 ≤ ⌊q⌋ := Int.floor_nonneg.mpr h0
  have hf255 : ⌊q⌋ ≤ 255 := by
    have := Int.floor_le_floor h255
    simpa using this
  have hfq : (⌊q⌋ : ℚ) ≤ q := Int.floor_le q
  unfold roundHalfEven
  by_cases h1 : q - ⌊q⌋ < 1/2
  · rw [if_pos h1]
    exact ⟨hf0, hf255⟩
  · rw [if_neg h1]
    have hhalf : (1 : ℚ)/2 ≤ q - ⌊q⌋ := le_of_not_lt h1
    have hlt : (⌊q⌋ : ℚ) < 255 := by linarith
    have hle254 : ⌊q⌋ + 1 ≤ 255 := by exact_mod_cast Int.add_one_le_of_lt (by exact_mod_cast hlt)
    by_cases h2 : 1/2 < q - ⌊q⌋
    · rw [if_pos h2]
      exact ⟨by omega, hle254⟩
    · rw [if_neg h2]
      by_cases h3 : ⌊q⌋ % 2 = 0
      · rw [if_pos h3]
        exact ⟨hf0, hf255⟩
      · rw [if_neg h3]
        exact ⟨by omega, hle254⟩

theorem applyLutNorm_mem_bounds (grid : List (List ℚ)) (autoscale : Bool)
    (vmin? vmax? : Option ℚ) :
    ∀ row ∈ (applyLutNorm grid autoscale vmin? vmax?).1, ∀ q ∈ row,
      0 ≤ q ∧ q ≤ 1 := by
  intro row hrow q hq
  have hrow2 : row ∈ clipGrid (normGrid grid (effBounds grid autoscale vmin? vmax?).1
      (effBounds grid autoscale vmin? vmax?).2) := hrow
  unfold clipGrid at hrow2
  rw [List.mem_map] at hrow2
  obtain ⟨row0, _, hr⟩ := hrow2
  rw [← hr, List.mem_map] at hq
  obtain ⟨u, _, hu⟩ := hq
  rw [← hu]
  exact clamp01_bounds u

/-- C10: the color-mapping stage never produces an out-of-range LUT index:
for every grid and every caller-supplied `autoscale`/`vmin`/`vmax`
(including non-bracketing bounds and `vmin > vmax`, which fall into the
degenerate all-zero branch), every computed index
`round(clamp(norm, 0, 1) * 255)` lies in `[0, 255]`, so the 256-entry LUT
lookup is always in range. -/
theorem heatmap_lut_index_bounds (grid : List (List ℚ)) (autoscale : Bool)
    (vmin? vmax? : Option ℚ) :
    ∀ row ∈ lutIndexGrid grid autoscale vmin? vmax?, ∀ idx ∈ row,
      0 ≤ idx ∧ idx ≤ 255 := by
  intro row hrow idx hidx
  unfold lutIndexGrid at hrow
  rw [List.mem_map] at hrow
  obtain ⟨row0, hrow0, hr⟩ := hrow
  rw [← hr, List.mem_map] at hidx
  obtain ⟨q, hq, hqi⟩ := hidx
  obtain ⟨hq0, hq1⟩ := applyLutNorm_mem_bounds grid autoscale vmin? vmax? row0 hrow0 q hq
  rw [← hqi]
  refine roundHalfEven_bounds (q * 255) (by positivity) ?_
  calc q * 255 ≤ 1 * 255 := mul_le_mul_of_nonneg_right hq1 (by norm_num)
    _ = 255 := by norm_num

/-- Witness for `heatmap_lut_index_bounds` at a grid with non-bracketing
reversed bounds (`vmin = 20 > vmax = 0`, autoscale off): the degenerate
branch produces index 0 for every cell, and the theorem bounds apply. -/
theorem heatmap_lut_index_bounds_witness :
    lutIndexGrid [[0, 10]] false (some 20) (some 0) = [[0, 0]] ∧
    (0 : ℤ) ≤ 0 ∧ (0 : ℤ) ≤ 255 := by
  have hdeg : ((0 : ℚ) - 20 < eps12) := by rw [eps12_eq]; norm_num
  have hcomp : lutIndexGrid [[0, 10]] false (some 20) (some 0) = [[0, 0]] := by
    unfold lutIndexGrid applyLutNorm
    show (clipGrid (normGrid [[0, 10]] 20 0)).map _ = _
    rw [normGrid, if_pos hdeg]
    unfold clipGrid clamp01 roundHalfEven
    norm_num
    rfl
  refine ⟨hcomp, ?_⟩
  exact heatmap_lut_index_bounds [[0, 10]] false (some 20) (some 0) [0, 0]
    (by rw [hcomp]; exact List.mem_singleton.mpr rfl) 0
    (by exact List.mem_cons_self _ _)

theorem getLast?_cons_ne_none {α : Type} (a : α) (l : List α) :
    (a :: l).getLast? ≠ none := by
  induction l generalizing a with
  | nil => simp
  | cons b t ih => rw [List.getLast?_cons_cons]; exact ih b

theorem lastWrite_cons (p : ℚ × ℚ × ℚ × ℚ) (rest : List (ℚ × ℚ × ℚ × ℚ))
    (xs ys : List ℚ) (i j : ℕ) :
    lastWrite (p :: rest) xs ys i j =
      if hitsCell xs ys i j p then
        (match lastWrite rest xs ys i j with
         | some v => some v
         | none => some (ptV p))
      else lastWrite rest xs ys i j := by
  unfold lastWrite
  rw [List.filter_cons]
  by_cases hp : hitsCell xs ys i j p
  · rw [if_pos hp, if_pos hp]
    rcases hfil : rest.filter (hitsCell xs ys i j) with _ | ⟨x, t⟩
    · rw [List.getLast?_singleton, List.getLast?_nil]
      rfl
    · rw [List.getLast?_cons_cons]
      rcases hlast : (x :: t).getLast? with _ | v
      · exact absurd hlast (getLast?_cons_ne_none x t)
      · rfl
  · rw [if_neg hp, if_neg hp]

theorem placedCell_foldl (xs ys : List ℚ) (i j : ℕ) :
    ∀ (points : List (ℚ × ℚ × ℚ × ℚ)) (base : ℕ → ℕ → Option ℚ),
      points.foldl (placeStep xs ys) base i j =
        match lastWrite points xs ys i j with
        | some v => some v
        | none => base i j := by
  intro points
  induction points with
  | nil => intro base; simp [lastWrite]
  | cons p rest ih =>
    intro base
    rw [List.foldl_cons, ih (placeStep xs ys base p), lastWrite_cons]
    by_cases hp : hitsCell xs ys i j p
    · rw [if_pos hp]
      rcases lastWrite rest xs ys i j with _ | v
      · show placeStep xs ys base p i j = some (ptV p)
        unfold placeStep
        rw [if_pos hp]
      · rfl
    · rw [if_neg hp]
      rcases lastWrite rest xs ys i j with _ | v
      · show placeStep xs ys base p i j = base i j
        unfold placeStep
        rw [if_neg hp]
      · rfl

theorem placedCell_eq (points : List (ℚ × ℚ × ℚ × ℚ)) (xs ys : List ℚ) (i j : ℕ) :
    placedCell points xs ys i j = lastWrite points xs ys i j := by
  unfold placedCell
  rw [placedCell_foldl]
  rcases lastWrite points xs ys i j with _ | v <;> rfl

/-- C9: in `build_grid`, every cell inside the `len(ys) × len(xs)` grid
holds the value of the LAST point written into it when one exists, and
otherwise the gap-fill value: the minimum of the values present in the
placed grid, or 0 when no values exist. -/
theorem heatmap_build_grid_fill (points : List (ℚ × ℚ × ℚ × ℚ)) (i j : ℕ)
    (hi : i < (gridYs points).length) (hj : j < (gridXs points).length) :
    ∃ cell,
      ((buildGrid points).2.2[i]?.bind (fun row => row[j]?)) = some cell ∧
      (lastWrite points (gridXs points) (gridYs points) i j = some cell ∨
        (lastWrite points (gridXs points) (gridYs points) i j = none ∧
          ((placedValues points (gridXs points) (gridYs points) = [] ∧ cell = 0) ∨
            (cell ∈ placedValues points (gridXs points) (gridYs points) ∧
              ∀ v ∈ placedValues points (gridXs points) (gridYs points), cell ≤ v)))) := by
  refine ⟨(placedCell points (gridXs points) (gridYs points) i j).getD
    (fillValue points (gridXs points) (gridYs points)), ?_, ?_⟩
  · show ((List.range (gridYs points).length).map (fun i =>
      (List.range (gridXs points).length).map (fun j =>
        (placedCell points (gridXs points) (gridYs points) i j).getD
          (fillValue points (gridXs points) (gridYs points)))))[i]?.bind
        (fun row => row[j]?) = _
    rw [List.getElem?_map]
    rw [List.getElem?_range hi]
    show ((List.range (gridXs points).length).map (fun j =>
      (placedCell points (gridXs points) (gridYs points) i j).getD
        (fillValue points (gridXs points) (gridYs points))))[j]? = _
    rw [List.getElem?_map, List.getElem?_range hj]
    rfl
  · rw [placedCell_eq]
    rcases hlw : lastWrite points (gridXs points) (gridYs points) i j with _ | v
    · refine Or.inr ⟨rfl, ?_⟩
      rcases hpv : placedValues points (gridXs points) (gridYs points) with _ | ⟨v, vs⟩
      · refine Or.inl ⟨rfl, ?_⟩
        show (none : Option ℚ).getD (fillValue points (gridXs points) (gridYs points)) = 0
        unfold fillValue
        rw [hpv]
        rfl
      · have hcell : (none : Option ℚ).getD
            (fillValue points (gridXs points) (gridYs points)) = vs.foldl min v := by
          show fillValue points (gridXs points) (gridYs points) = vs.foldl min v
          unfold fillValue
          rw [hpv]
        refine Or.inr ⟨?_, ?_⟩
        · rw [hcell]
          rcases foldl_min_mem vs v with h | h
          · rw [h]; exact List.mem_cons_self _ _
          · exact List.mem_cons_of_mem _ h
        · intro x hx
          rw [hcell]
          rcases List.mem_cons.mp hx with h1 | h1
          · rw [h1]; exact foldl_min_le_init vs v
          · exact foldl_min_le_mem vs v x h1
    · exact Or.inl rfl

/-- Witness for `heatmap_build_grid_fill`: points `(0,0,·,5)` and
`(1,1,·,9)` give a 2×2 grid; cell `(0,1)` received no point and the
theorem yields its gap-fill value (the minimum placed value, 5). -/
theorem heatmap_build_grid_fill_witness :
    (0 < (gridYs [((0 : ℚ), (0 : ℚ), (0 : ℚ), (5 : ℚ)), (1, 1, 0, 9)]).length ∧
      1 < (gridXs [((0 : ℚ), (0 : ℚ), (0 : ℚ), (5 : ℚ)), (1, 1, 0, 9)]).length) ∧
    ∃ cell,
      ((buildGrid [((0 : ℚ), (0 : ℚ), (0 : ℚ), (5 : ℚ)), (1, 1, 0, 9)]).2.2[0]?.bind
        (fun row => row[1]?)) = some cell ∧
      (lastWrite [((0 : ℚ), (0 : ℚ), (0 : ℚ), (5 : ℚ)), (1, 1, 0, 9)]
          (gridXs [((0 : ℚ), (0 : ℚ), (0 : ℚ), (5 : ℚ)), (1, 1, 0, 9)])
          (gridYs [((0 : ℚ), (0 : ℚ), (0 : ℚ), (5 : ℚ)), (1, 1, 0, 9)]) 0 1 =
          some cell ∨
        (lastWrite [((0 : ℚ), (0 : ℚ), (0 : ℚ), (5 : ℚ)), (1, 1, 0, 9)]
            (gridXs [((0 : ℚ), (0 : ℚ), (0 : ℚ), (5 : ℚ)), (1, 1, 0, 9)])
            (gridYs [((0 : ℚ), (0 : ℚ), (0 : ℚ), (5 : ℚ)), (1, 1, 0, 9)]) 0 1 = none ∧
          ((placedValues [((0 : ℚ), (0 : ℚ), (0 : ℚ), (5 : ℚ)), (1, 1, 0, 9)]
              (gridXs [((0 : ℚ), (0 : ℚ), (0 : ℚ), (5 : ℚ)), (1, 1, 0, 9)])
              (gridYs [((0 : ℚ), (0 : ℚ), (0 : ℚ), (5 : ℚ)), (1, 1, 0, 9)]) = [] ∧
              cell = 0) ∨
            (cell ∈ placedValues [((0 : ℚ), (0 : ℚ), (0 : ℚ), (5 : ℚ)), (1, 1, 0, 9)]
              (gridXs [((0 : ℚ), (0 : ℚ), (0 : ℚ), (5 : ℚ)), (1, 1, 0, 9)])
              (gridYs [((0 : ℚ), (0 : ℚ), (0 : ℚ), (5 : ℚ)), (1, 1, 0, 9)]) ∧
              ∀ v ∈ placedValues [((0 : ℚ), (0 : ℚ), (0 : ℚ), (5 : ℚ)), (1, 1, 0, 9)]
                (gridXs [((0 : ℚ), (0 : ℚ), (0 : ℚ), (5 : ℚ)), (1, 1, 0, 9)])
                (gridYs [((0 : ℚ), (0 : ℚ), (0 : ℚ), (5 : ℚ)), (1, 1, 0, 9)]),
                cell ≤ v)))) :=
  ⟨⟨by decide, by decide⟩,
    heatmap_build_grid_fill [((0 : ℚ), (0 : ℚ), (0 : ℚ), (5 : ℚ)), (1, 1, 0, 9)] 0 1
      (by decide) (by decide)⟩

end NfsScanner
